import Mathlib

/-!
Verification of the openapi-codegen-toolkit extraction/generation engine.

The toolkit's core is a set of JavaScript classes that parse an
OpenAPI-derived `schema.d.ts` text and emit derived artifacts.  This file
gives a shallow embedding of the relevant functions, working over
`Str := List Char` so that every JavaScript string operation
(`split`, `replace`, `startsWith`, `toLowerCase`, ...) has a direct,
executable counterpart, and proves properties of those embeddings.

Embedded components (source file → Lean namespace):
- `TagsGenerator.extractTagFromPath` / tag aggregation → `TagsGenerator`
- `NamingConventions` (function/constant names, tag derivation) → `NamingConventions`
- `ReactQueryGenerator.parseAPIFile` hook classification → `ReactQueryGenerator`
- `Generator.generateAll` pipeline loop → `Orchestrator`
- `DeepSchemaTypeExtractor` (brace scanner, property filter, naming,
  nested-schema walker) → `DeepSchema`
- `TypeGenerator.processSchema` response resolution → `TypeGenerator`
-/

set_option maxRecDepth 4000

/-- Strings are modelled as lists of characters so that the JavaScript
string functions used by the generators can be embedded directly. -/
abbrev Str := List Char

/-- Coerce a Lean string literal to the `List Char` representation. -/
def str (s : String) : Str := s.data

/-- ASCII digit test, the `\d` character class of the JavaScript regexes. -/
def isDigitC (c : Char) : Bool := 48 ≤ c.toNat && c.toNat ≤ 57

/-- ASCII upper-case letter test, the `[A-Z]` character class. -/
def isUpperC (c : Char) : Bool := 65 ≤ c.toNat && c.toNat ≤ 90

/-- ASCII lower-case letter test, the `[a-z]` character class. -/
def isLowerC (c : Char) : Bool := 97 ≤ c.toNat && c.toNat ≤ 122

/-- The `\w` character class of the JavaScript regexes: `[A-Za-z0-9_]`. -/
def isWordC (c : Char) : Bool := isDigitC c || isUpperC c || isLowerC c || c = '_'

/-- ASCII lower-casing of one character (JavaScript `toLowerCase` on the
ASCII identifiers these generators handle). -/
def lowerC (c : Char) : Char := if isUpperC c then Char.ofNat (c.toNat + 32) else c

/-- ASCII upper-casing of one character (JavaScript `toUpperCase`). -/
def upperC (c : Char) : Char := if isLowerC c then Char.ofNat (c.toNat - 32) else c

/-- JavaScript `toLowerCase` over a whole string. -/
def lowerS (s : Str) : Str := s.map lowerC

/-- JavaScript `toUpperCase` over a whole string. -/
def upperS (s : Str) : Str := s.map upperC

/-- JavaScript `startsWith`: matches on the needle first so that the
kernel can evaluate it even when only a prefix of the haystack is known. -/
def startsWithS : Str → Str → Bool
  | [], _ => true
  | a :: as, s =>
    match s with
    | [] => false
    | b :: bs => a == b && startsWithS as bs

/-- JavaScript `includes`: does `hay` contain `needle` as a contiguous
substring? -/
def containsS (needle : Str) : Str → Bool
  | [] => needle.isEmpty
  | c :: rest => startsWithS needle (c :: rest) || containsS needle rest

/-- JavaScript `split(sep)` on a single-character separator: splits into
(possibly empty) chunks between occurrences of `sep`. -/
def splitOnC (sep : Char) : Str → List Str
  | [] => [[]]
  | c :: rest =>
    if c = sep then [] :: splitOnC sep rest
    else
      match splitOnC sep rest with
      | [] => [[c]]
      | g :: gs => (c :: g) :: gs

/-- Capitalisation of the first character, the ubiquitous
`s.charAt(0).toUpperCase() + s.slice(1)` idiom of the generators. -/
def capitalizeS : Str → Str
  | [] => []
  | c :: rest => upperC c :: rest

/-- Generic insertion of an element into a list, keeping elements ordered
by the boolean comparison `le`. -/
def insertLe (le : α → α → Bool) (x : α) : List α → List α
  | [] => [x]
  | y :: ys => if le x y then x :: y :: ys else y :: insertLe le x ys

/-- Insertion sort by a boolean comparison; used to model JavaScript
`Array.prototype.sort`. -/
def isortBy (le : α → α → Bool) : List α → List α
  | [] => []
  | x :: xs => insertLe le x (isortBy le xs)

/-- Lexicographic string comparison by character code, the default
comparator of JavaScript `Array.prototype.sort` on strings. -/
def strLe : Str → Str → Bool
  | [], _ => true
  | _ :: _, [] => false
  | a :: as, b :: bs =>
    if a.toNat < b.toNat then true
    else if b.toNat < a.toNat then false
    else strLe as bs

theorem insertLe_perm (le : α → α → Bool) (x : α) (l : List α) :
    (insertLe le x l).Perm (x :: l) := by
  induction l with
  | nil => simp [insertLe]
  | cons y ys ih =>
    by_cases h : le x y
    · simp [insertLe, h]
    · simp only [insertLe, h, if_neg, Bool.false_eq_true, if_false]
      exact .trans (.cons y ih) (.swap x y ys)

theorem isortBy_perm (le : α → α → Bool) (l : List α) :
    (isortBy le l).Perm l := by
  induction l with
  | nil => simp [isortBy]
  | cons x xs ih =>
    exact .trans (insertLe_perm le x (isortBy le xs)) (.cons x ih)

theorem mem_isortBy (le : α → α → Bool) (x : α) (l : List α) :
    x ∈ isortBy le l ↔ x ∈ l :=
  (isortBy_perm le l).mem_iff

theorem insertLe_pairwise (le : α → α → Bool)
    (htot : ∀ a b, le a b || le b a)
    (htrans : ∀ a b c, le a b = true → le b c = true → le a c = true)
    (x : α) (l : List α) (hl : l.Pairwise (fun a b => le a b = true)) :
    (insertLe le x l).Pairwise (fun a b => le a b = true) := by
  induction l with
  | nil => simp [insertLe]
  | cons y ys ih =>
    rcases List.pairwise_cons.mp hl with ⟨hy, hys⟩
    by_cases h : le x y
    · simp only [insertLe, h, if_true]
      refine List.pairwise_cons.mpr ⟨?_, hl⟩
      intro b hb
      rcases List.mem_cons.mp hb with rfl | hb
      · exact h
      · exact htrans x y b h (hy _ hb)
    · simp only [insertLe, h, Bool.false_eq_true, if_false]
      refine List.pairwise_cons.mpr ⟨?_, ih hys⟩
      intro b hb
      have hyx : le y x := by
        rcases Bool.or_eq_true_iff.mp (htot x y) with h' | h'
        · exact absurd h' h
        · exact h'
      rw [(insertLe_perm le x ys).mem_iff] at hb
      rcases List.mem_cons.mp hb with rfl | hb
      · exact hyx
      · exact hy _ hb

theorem isortBy_pairwise (le : α → α → Bool)
    (htot : ∀ a b, le a b || le b a)
    (htrans : ∀ a b c, le a b = true → le b c = true → le a c = true)
    (l : List α) :
    (isortBy le l).Pairwise (fun a b => le a b = true) := by
  induction l with
  | nil => simp [isortBy]
  | cons x xs ih => exact insertLe_pairwise le htot htrans x _ ih

theorem strLe_total (a b : Str) : strLe a b || strLe b a := by
  induction a generalizing b with
  | nil => simp [strLe]
  | cons c as ih =>
    cases b with
    | nil => simp [strLe]
    | cons d bs =>
      simp only [strLe]
      by_cases h1 : c.toNat < d.toNat
      · simp [h1]
      · by_cases h2 : d.toNat < c.toNat
        · simp [h1, h2]
        · simp only [h1, h2, if_false]
          exact ih bs

theorem strLe_trans (a b c : Str) :
    strLe a b = true → strLe b c = true → strLe a c = true := by
  induction a generalizing b c with
  | nil => intro _ _; simp [strLe]
  | cons x as ih =>
    intro hab hbc
    cases b with
    | nil => simp [strLe] at hab
    | cons y bs =>
      cases c with
      | nil => simp [strLe] at hbc
      | cons z cs =>
        simp only [strLe] at hab hbc ⊢
        by_cases hxy : x.toNat < y.toNat
        · by_cases hyz : y.toNat < z.toNat
          · have : x.toNat < z.toNat := Nat.lt_trans hxy hyz
            simp [this]
          · by_cases hzy : z.toNat < y.toNat
            · simp [hxy, hyz, hzy] at hbc
            · have hyz' : y.toNat = z.toNat := Nat.le_antisymm (Nat.le_of_not_lt hzy) (Nat.le_of_not_lt hyz)
              have : x.toNat < z.toNat := hyz' ▸ hxy
              simp [this]
        · by_cases hyx : y.toNat < x.toNat
          · simp [hxy, hyx] at hab
          · have hxy' : x.toNat = y.toNat := Nat.le_antisymm (Nat.le_of_not_lt hyx) (Nat.le_of_not_lt hxy)
            by_cases hyz : y.toNat < z.toNat
            · have : x.toNat < z.toNat := hxy' ▸ hyz
              simp [this]
            · by_cases hzy : z.toNat < y.toNat
              · simp [hxy, hyx, hyz, hzy] at hbc
              · have hne1 : ¬ x.toNat < z.toNat := by omega
                have hne2 : ¬ z.toNat < x.toNat := by omega
                simp only [hne1, hne2, if_false]
                simp only [hxy, hyx, if_false] at hab
                simp only [hyz, hzy, if_false] at hbc
                exact ih bs cs hab hbc

namespace TagsGenerator

/-- Test for the `/^v\d+$/` regex of `TagsGenerator.extractTagFromPath`
(case-sensitive: a literal `v` followed by one or more digits). -/
def vSeg : Str → Bool
  | c :: rest => c = 'v' && !rest.isEmpty && rest.all isDigitC
  | [] => false

/-- Embedding of `TagsGenerator.extractTagFromPath(path, schemaName = '')`
(src/src/generators/TagsGenerator.js lines 51-87): split on `/`, drop empty
segments, classify, applying the `internal` exclusion and the
content-server `tournament` exclusion; `none` models the JavaScript `null`. -/
def extractTagFromPath (path schemaName : Str) : Option Str :=
  let segments := (splitOnC '/' path).filter (fun s => !s.isEmpty)
  match segments with
  | [] => some (str "root")
  | s0 :: rest =>
    if vSeg s0 then
      match rest with
      | s1 :: _ =>
        if schemaName = str "content" ∧ s1 = str "tournament" then none
        else if s1 = str "internal" then none
        else some (s0 ++ '_' :: s1)
      | [] => some s0
    else if s0 = str "internal" then none
    else if schemaName = str "content" ∧ s0 = str "tournament" then none
    else some s0

/-- JavaScript `Set.prototype.add`: append if absent, keeping insertion
order. -/
def setAdd (tags : List Str) (t : Str) : List Str :=
  if t ∈ tags then tags else tags ++ [t]

/-- One iteration of the path loop of `extractTagsFromSchema`
(lines 112-125): null tags are ignored, others are added to the tag set and
recorded in `pathsData`. -/
def tagStep (schemaName : Str) (acc : List Str × List (Str × Str)) (p : Str) :
    List Str × List (Str × Str) :=
  match extractTagFromPath p schemaName with
  | none => acc
  | some t => (setAdd acc.1 t, acc.2 ++ [(p, t)])

/-- Embedding of `TagsGenerator.extractTagsFromSchema`, modelled over the
list of path strings that the path regex yields from the `paths` block. -/
def extractTagsFromSchema (paths : List Str) (schemaName : Str) :
    List Str × List (Str × Str) :=
  paths.foldl (tagStep schemaName) ([], [])

/-- The `Array.from(tags).sort()` of `generateTagFile` (line 137). -/
def sortedTags (tags : List Str) : List Str := isortBy strLe tags

/-- The per-tag count of `generateTagFile` (lines 140-143): number of
`pathsData` entries carrying the tag. -/
def tagStats (pathsData : List (Str × Str)) (t : Str) : Nat :=
  (pathsData.filter (fun pd => pd.2 = t)).length

theorem setAdd_mem (l : List Str) (u t : Str) :
    t ∈ setAdd l u ↔ t ∈ l ∨ t = u := by
  unfold setAdd
  by_cases h : u ∈ l
  · simp only [h, if_true]
    constructor
    · exact .inl
    · rintro (ht | rfl)
      · exact ht
      · exact h
  · simp [h]

theorem setAdd_nodup (l : List Str) (u : Str) (h : l.Nodup) :
    (setAdd l u).Nodup := by
  unfold setAdd
  by_cases hu : u ∈ l
  · simpa [hu]
  · simp [hu, List.nodup_append, h]

theorem tagStep_fold_fst_mem (sn : Str) (paths : List Str)
    (acc : List Str × List (Str × Str)) (t : Str) :
    t ∈ (paths.foldl (tagStep sn) acc).1 ↔
      t ∈ acc.1 ∨ ∃ p ∈ paths, extractTagFromPath p sn = some t := by
  induction paths generalizing acc with
  | nil => simp
  | cons p ps ih =>
    simp only [List.foldl_cons]
    rw [ih]
    cases hp : extractTagFromPath p sn with
    | none =>
      simp only [tagStep, hp]
      constructor
      · rintro (h | ⟨q, hq, hqt⟩)
        · exact .inl h
        · exact .inr ⟨q, List.mem_cons_of_mem _ hq, hqt⟩
      · rintro (h | ⟨q, hq, hqt⟩)
        · exact .inl h
        · rcases List.mem_cons.mp hq with rfl | hq
          · rw [hp] at hqt; cases hqt
          · exact .inr ⟨q, hq, hqt⟩
    | some u =>
      simp only [tagStep, hp]
      rw [setAdd_mem]
      constructor
      · rintro ((h | rfl) | ⟨q, hq, hqt⟩)
        · exact .inl h
        · exact .inr ⟨p, List.mem_cons_self _ _, hp⟩
        · exact .inr ⟨q, List.mem_cons_of_mem _ hq, hqt⟩
      · rintro (h | ⟨q, hq, hqt⟩)
        · exact .inl (.inl h)
        · rcases List.mem_cons.mp hq with rfl | hq
          · rw [hp] at hqt
            exact .inl (.inr (Option.some_injective _ hqt).symm)
          · exact .inr ⟨q, hq, hqt⟩

theorem tagStep_fold_fst_nodup (sn : Str) (paths : List Str)
    (acc : List Str × List (Str × Str)) (h : acc.1.Nodup) :
    (paths.foldl (tagStep sn) acc).1.Nodup := by
  induction paths generalizing acc with
  | nil => simpa
  | cons p ps ih =>
    simp only [List.foldl_cons]
    apply ih
    cases hp : extractTagFromPath p sn with
    | none => simpa [tagStep, hp]
    | some u =>
      simp only [tagStep, hp]
      exact setAdd_nodup _ _ h

theorem tagStep_fold_snd (sn : Str) (paths : List Str)
    (acc : List Str × List (Str × Str)) :
    (paths.foldl (tagStep sn) acc).2 =
      acc.2 ++ paths.filterMap
        (fun p => (extractTagFromPath p sn).map (fun t => (p, t))) := by
  induction paths generalizing acc with
  | nil => simp
  | cons p ps ih =>
    simp only [List.foldl_cons, List.filterMap_cons]
    cases hp : extractTagFromPath p sn with
    | none => simp [tagStep, hp, ih]
    | some u =>
      simp only [tagStep, hp, ih, Option.map_some']
      simp

end TagsGenerator

namespace TagsGenerator

theorem tagStats_spec (sn : Str) (paths : List Str) (t : Str) :
    tagStats (paths.filterMap
        (fun p => (extractTagFromPath p sn).map (fun u => (p, u)))) t =
      (paths.filter (fun p => decide (extractTagFromPath p sn = some t))).length := by
  induction paths with
  | nil => rfl
  | cons p ps ih =>
    simp only [List.filterMap_cons, List.filter_cons]
    cases hp : extractTagFromPath p sn with
    | none => simpa [tagStats, hp] using ih
    | some u =>
      by_cases hu : u = t
      · subst hu
        simpa [tagStats, hp, List.filter_cons] using congrArg Nat.succ ih
      · simpa [tagStats, hp, hu, List.filter_cons] using ih

end TagsGenerator

/-- C4: the tag classifier returns `root` for a path with no non-empty
segments, `{seg0}_{seg1}` when segment 0 matches `v\d+` and a segment 1
exists, and otherwise segment 0, except that a path whose relevant segment
is `internal` is excluded (`none`); `/v1/internal/x` is excluded,
`/v1/users` gives `v1_users`, `/users/{id}` gives `users`; excluded paths
contribute nothing to the tag set or the per-tag statistics: the sorted tag
list contains exactly the non-null tags, without duplicates and in sorted
order, and each tag's count equals the number of paths classified to it. -/
theorem C4_tag_classifier :
    (∀ path : Str,
      TagsGenerator.extractTagFromPath path (str "") =
        match (splitOnC '/' path).filter (fun s => !s.isEmpty) with
        | [] => some (str "root")
        | s0 :: rest =>
          if TagsGenerator.vSeg s0 then
            match rest with
            | [] => some s0
            | s1 :: _ =>
              if s1 = str "internal" then none
              else some (s0 ++ '_' :: s1)
          else if s0 = str "internal" then none
          else some s0)
    ∧ TagsGenerator.extractTagFromPath (str "/v1/internal/x") (str "") = none
    ∧ TagsGenerator.extractTagFromPath (str "/v1/users") (str "") = some (str "v1_users")
    ∧ TagsGenerator.extractTagFromPath (str "/users/\x7bid\x7d") (str "") = some (str "users")
    ∧ (∀ paths sn t,
        t ∈ TagsGenerator.sortedTags (TagsGenerator.extractTagsFromSchema paths sn).1 ↔
          ∃ p ∈ paths, TagsGenerator.extractTagFromPath p sn = some t)
    ∧ (∀ paths sn,
        (TagsGenerator.sortedTags (TagsGenerator.extractTagsFromSchema paths sn).1).Pairwise
          (fun a b => strLe a b = true))
    ∧ (∀ paths sn,
        (TagsGenerator.sortedTags (TagsGenerator.extractTagsFromSchema paths sn).1).Nodup)
    ∧ (∀ paths sn t,
        TagsGenerator.tagStats (TagsGenerator.extractTagsFromSchema paths sn).2 t =
          (paths.filter
            (fun p => decide (TagsGenerator.extractTagFromPath p sn = some t))).length) := by
  refine ⟨?_, by decide, by decide, by decide, ?_, ?_, ?_, ?_⟩
  · intro path
    unfold TagsGenerator.extractTagFromPath
    have hc : ¬ (str "" = str "content") := by decide
    cases hs : (splitOnC '/' path).filter (fun s => !s.isEmpty) with
    | nil => simp [hs]
    | cons s0 rest =>
      simp only [hs]
      by_cases hv : TagsGenerator.vSeg s0
      · cases rest with
        | nil => simp [hv]
        | cons s1 rs =>
          by_cases h1 : s1 = str "internal"
          · simp [hv, h1, hc]
          · simp [hv, h1, hc]
      · by_cases h0 : s0 = str "internal"
        · subst h0
          simp [hv]
        · simp [hv, h0, hc]
  · intro paths sn t
    rw [TagsGenerator.sortedTags, mem_isortBy,
      TagsGenerator.extractTagsFromSchema,
      TagsGenerator.tagStep_fold_fst_mem]
    simp
  · intro paths sn
    exact isortBy_pairwise strLe strLe_total strLe_trans _
  · intro paths sn
    exact ((isortBy_perm strLe _).nodup_iff).mpr
      (TagsGenerator.tagStep_fold_fst_nodup sn paths ([], []) (by simp))
  · intro paths sn t
    rw [TagsGenerator.extractTagsFromSchema, TagsGenerator.tagStep_fold_snd]
    simpa using TagsGenerator.tagStats_spec sn paths t

/-- Opening brace character, written numerically. -/
def lbrace : Char := Char.ofNat 123

/-- Closing brace character, written numerically. -/
def rbrace : Char := Char.ofNat 125

theorem dropWhileLenLe (p : α → Bool) (l : List α) :
    (l.dropWhile p).length ≤ l.length := by
  induction l with
  | nil => simp
  | cons c rest ih =>
    by_cases h : p c
    · rw [List.dropWhile_cons_of_pos h]
      exact Nat.le_succ_of_le ih
    · rw [List.dropWhile_cons_of_neg h]

namespace NamingConventions

/-- Recursion core of `path.replace(/\{[^}]+\}/g, 'ID')` (part_006
line 47).  The fuel argument is only there to make the recursion
structural (so that the kernel can evaluate it): every step consumes at
least one character, so fuel equal to the input length never runs out. -/
def replacePlaceholdersGo : Nat → Str → Str
  | _, [] => []
  | 0, _ :: _ => []
  | Nat.succ n, c :: rest =>
    if c = lbrace then
      match rest.dropWhile (fun d => !(d = rbrace)) with
      | [] => c :: replacePlaceholdersGo n rest
      | _ :: after =>
        if (rest.takeWhile (fun d => !(d = rbrace))).isEmpty then
          c :: replacePlaceholdersGo n rest
        else str "ID" ++ replacePlaceholdersGo n after
    else c :: replacePlaceholdersGo n rest

/-- Embedding of `path.replace(/\{[^}]+\}/g, 'ID')` (part_006 line 47):
each brace-delimited placeholder with a non-empty body is replaced by `ID`;
an empty `{}` does not match and stays literal. -/
def replacePlaceholders (s : Str) : Str := replacePlaceholdersGo s.length s

/-- Embedding of `replace(/[^\w]/g, '_')` (line 48). -/
def underscoreNonWord (s : Str) : Str :=
  s.map (fun c => if isWordC c then c else '_')

/-- Embedding of `replace(/_+/g, '_')` (line 49): collapse each run of
underscores to a single one. -/
def collapseUnderscores : Str → Str
  | [] => []
  | [c] => [c]
  | c :: d :: rest =>
    if c = '_' && d = '_' then collapseUnderscores (d :: rest)
    else c :: collapseUnderscores (d :: rest)

/-- Embedding of `replace(/^_|_$/g, '')` (line 50): the alternation removes
one leading and one trailing underscore. -/
def stripEdgeUnderscores (s : Str) : Str :=
  let s1 := match s with
    | '_' :: rest => rest
    | other => other
  match s1.reverse with
  | '_' :: rev => rev.reverse
  | _ => s1

/-- The shared path-normalisation pipeline of `generateFunctionName` and
`generateConstantName` (lines 46-50 and 90-94). -/
def cleanPathOf (path : Str) : Str :=
  stripEdgeUnderscores (collapseUnderscores (underscoreNonWord (replacePlaceholders path)))

/-- Join of the camelCase step (lines 56-64): first part verbatim, later
parts capitalised. -/
def joinCamel : List Str → Str
  | [] => []
  | p :: ps => p ++ (ps.map capitalizeS).flatten

/-- Assoc-list lookup modelling the `this.functionNaming[key]` property
access. -/
def lookupAssoc (m : List (Str × Str)) (k : Str) : Option Str :=
  (m.find? (fun e => decide (e.1 = k))).map (fun e => e.2)

/-- The default verb map of the `NamingConventions` constructor
(part_006 lines 20-26). -/
def defaultFunctionNaming : List (Str × Str) :=
  [(str "get", str "fetch"), (str "post", str "create"), (str "put", str "update"),
   (str "patch", str "modify"), (str "delete", str "remove")]

/-- Embedding of `NamingConventions.generateFunctionName(path, method)`
(part_006 lines 44-72), parameterised by the configured
`functionNaming` verb map. -/
def generateFunctionName (functionNaming : List (Str × Str)) (path method : Str) : Str :=
  let cleanPath := cleanPathOf path
  let parts := (splitOnC '_' (lowerS cleanPath)).filter (fun s => !s.isEmpty)
  let camelCase := joinCamel parts
  let verb := (lookupAssoc functionNaming (lowerS method)).getD (lowerS method)
  verb ++ capitalizeS camelCase

/-- Embedding of `NamingConventions.generateConstantName(path, method)`
(part_006 lines 89-98). -/
def generateConstantName (path method : Str) : Str :=
  upperS method ++ '_' :: upperS (cleanPathOf path)

/-- Test for the `/^v\d+$/i` regex of
`NamingConventions.extractTagFromPath` (case-insensitive `v`). -/
def vSegCI : Str → Bool
  | c :: rest => (c = 'v' || c = 'V') && !rest.isEmpty && rest.all isDigitC
  | [] => false

/-- Embedding of `NamingConventions.extractTagFromPath(path)`
(part_006 lines 189-202): the tag-derivation rule used by the endpoint and
domain-API generators, with no exclusion rules. -/
def extractTagFromPath (path : Str) : Str :=
  let segments := (splitOnC '/' path).filter (fun s => !s.isEmpty)
  match segments with
  | [] => str "root"
  | s0 :: rest =>
    match rest with
    | s1 :: _ => if vSegCI s0 then s0 ++ '_' :: s1 else s0
    | [] => s0

end NamingConventions

namespace ReactQueryGenerator

/-- The two hook kinds produced by the generator. -/
inductive HookType where
  | query
  | mutation
deriving DecidableEq

/-- Embedding of the hook classification of
`ReactQueryGenerator.parseAPIFile` (src/src/generators/ReactQueryGenerator.js
lines 111-121): a wrapper function is a mutation hook exactly when its name
starts with one of the hard-coded keywords, and a query hook otherwise. -/
def classifyHookType (functionName : Str) : HookType :=
  if startsWithS (str "create") functionName
      || startsWithS (str "modify") functionName
      || startsWithS (str "remove") functionName
      || startsWithS (str "update") functionName
      || startsWithS (str "delete") functionName
  then .mutation
  else .query

end ReactQueryGenerator

namespace Orchestrator

/-- One pipeline step as `generateAll` sees it: its display name, the
`required` flag, whether `this.generators[step.executor]` exists, and
whether executing it throws. -/
structure StepDef where
  name : Str
  required : Bool
  hasGen : Bool
  throws : Bool

/-- The observable outcome of one `generateAll` run: the `results.success`
and `results.failed` lists of the summary, the steps skipped with a warning
because no generator exists, and the steps whose loop iteration was entered
at all. -/
structure RunResults where
  success : List Str
  failed : List Str
  warned : List Str
  attempted : List Str
deriving DecidableEq

/-- Embedding of the step loop of `Generator.generateAll`
(src/src/core/Generator.js lines 149-175): a step with a generator either
succeeds (pushed to `success`) or throws (pushed to `failed`, and if
`required` the loop breaks); a step without a generator is skipped with a
warning. -/
def generateAll : List StepDef → RunResults
  | [] => ⟨[], [], [], []⟩
  | s :: rest =>
    if s.hasGen then
      if s.throws then
        if s.required then ⟨[], [s.name], [], [s.name]⟩
        else
          let r := generateAll rest
          ⟨r.success, s.name :: r.failed, r.warned, s.name :: r.attempted⟩
      else
        let r := generateAll rest
        ⟨s.name :: r.success, r.failed, r.warned, s.name :: r.attempted⟩
    else
      let r := generateAll rest
      ⟨r.success, r.failed, s.name :: r.warned, s.name :: r.attempted⟩

end Orchestrator

/-- The HTTP methods recognised by the `(get|post|put|patch|delete)` method
regexes of the generators. -/
def httpMethods : List Str :=
  [str "get", str "post", str "put", str "patch", str "delete"]

namespace NamingConventions

theorem genFn_head_get (p : Str) :
    (generateFunctionName defaultFunctionNaming p (str "get")).head? = some 'f' := rfl

theorem genFn_head_post (p : Str) :
    (generateFunctionName defaultFunctionNaming p (str "post")).head? = some 'c' := rfl

theorem genFn_head_put (p : Str) :
    (generateFunctionName defaultFunctionNaming p (str "put")).head? = some 'u' := rfl

theorem genFn_head_patch (p : Str) :
    (generateFunctionName defaultFunctionNaming p (str "patch")).head? = some 'm' := rfl

theorem genFn_head_delete (p : Str) :
    (generateFunctionName defaultFunctionNaming p (str "delete")).head? = some 'r' := rfl

theorem genConst_take_get (p : Str) :
    (generateConstantName p (str "get")).takeWhile (fun c => !(c = '_')) = str "GET" := rfl

theorem genConst_take_post (p : Str) :
    (generateConstantName p (str "post")).takeWhile (fun c => !(c = '_')) = str "POST" := rfl

theorem genConst_take_put (p : Str) :
    (generateConstantName p (str "put")).takeWhile (fun c => !(c = '_')) = str "PUT" := rfl

theorem genConst_take_patch (p : Str) :
    (generateConstantName p (str "patch")).takeWhile (fun c => !(c = '_')) = str "PATCH" := rfl

theorem genConst_take_delete (p : Str) :
    (generateConstantName p (str "delete")).takeWhile (fun c => !(c = '_')) = str "DELETE" := rfl

end NamingConventions

/-- C7 counterexample: the identifier generators are not collision-free
over distinct (path, method) pairs: the distinct paths `/users` and
`/users/` normalise identically and receive the same wrapper function name
and the same endpoint constant name for the same method. -/
theorem C7_counterexample :
    NamingConventions.generateFunctionName NamingConventions.defaultFunctionNaming
        (str "/users") (str "get") =
      NamingConventions.generateFunctionName NamingConventions.defaultFunctionNaming
        (str "/users/") (str "get")
    ∧ NamingConventions.generateConstantName (str "/users") (str "get") =
      NamingConventions.generateConstantName (str "/users/") (str "get")
    ∧ str "/users" ≠ str "/users/" := by
  refine ⟨by decide, by decide, by decide⟩

/-- C7 (amended): identifier generation is deterministic (the embeddings
are pure functions) and the source's own example holds
(`/users/{id}` + `get` gives `fetchUsersId`); operations with distinct HTTP
methods always receive distinct wrapper function names and distinct
endpoint constant names under the default verb map, but two distinct paths
that normalise to the same cleaned form receive identical identifiers for
the same method. -/
theorem C7_identifier_generation :
    NamingConventions.generateFunctionName NamingConventions.defaultFunctionNaming
        (str "/users/\x7bid\x7d") (str "get") = str "fetchUsersId"
    ∧ (∀ m₁ m₂, m₁ ∈ httpMethods → m₂ ∈ httpMethods → m₁ ≠ m₂ →
        ∀ p₁ p₂,
          NamingConventions.generateFunctionName NamingConventions.defaultFunctionNaming p₁ m₁ ≠
          NamingConventions.generateFunctionName NamingConventions.defaultFunctionNaming p₂ m₂)
    ∧ (∀ m₁ m₂, m₁ ∈ httpMethods → m₂ ∈ httpMethods → m₁ ≠ m₂ →
        ∀ p₁ p₂,
          NamingConventions.generateConstantName p₁ m₁ ≠
          NamingConventions.generateConstantName p₂ m₂) := by
  refine ⟨by decide, ?_, ?_⟩
  · intro m₁ m₂ h1 h2 hne p₁ p₂ heq
    have k := congrArg List.head? heq
    simp only [httpMethods, List.mem_cons, List.not_mem_nil, or_false] at h1 h2
    rcases h1 with rfl | rfl | rfl | rfl | rfl <;>
      rcases h2 with rfl | rfl | rfl | rfl | rfl <;>
        first
          | exact hne rfl
          | (simp only [NamingConventions.genFn_head_get, NamingConventions.genFn_head_post,
              NamingConventions.genFn_head_put, NamingConventions.genFn_head_patch,
              NamingConventions.genFn_head_delete] at k
             exact absurd k (by decide))
  · intro m₁ m₂ h1 h2 hne p₁ p₂ heq
    have k := congrArg (List.takeWhile (fun c => !(c = '_'))) heq
    simp only [httpMethods, List.mem_cons, List.not_mem_nil, or_false] at h1 h2
    rcases h1 with rfl | rfl | rfl | rfl | rfl <;>
      rcases h2 with rfl | rfl | rfl | rfl | rfl <;>
        first
          | exact hne rfl
          | (simp only [NamingConventions.genConst_take_get, NamingConventions.genConst_take_post,
              NamingConventions.genConst_take_put, NamingConventions.genConst_take_patch,
              NamingConventions.genConst_take_delete] at k
             exact absurd k (by decide))

/-- C7 witness: the amended collision-freedom across methods, applied at
the concrete methods `get` and `post` on the path `/a`. -/
theorem C7_witness :
    NamingConventions.generateFunctionName NamingConventions.defaultFunctionNaming
        (str "/a") (str "get") ≠
      NamingConventions.generateFunctionName NamingConventions.defaultFunctionNaming
        (str "/a") (str "post")
    ∧ NamingConventions.generateConstantName (str "/a") (str "get") ≠
      NamingConventions.generateConstantName (str "/a") (str "post") :=
  ⟨C7_identifier_generation.2.1 (str "get") (str "post")
      (by decide) (by decide) (by decide) (str "/a") (str "/a"),
   C7_identifier_generation.2.2 (str "get") (str "post")
      (by decide) (by decide) (by decide) (str "/a") (str "/a")⟩

namespace ReactQueryGenerator

theorem classify_genFn_get (p : Str) :
    classifyHookType
      (NamingConventions.generateFunctionName NamingConventions.defaultFunctionNaming p (str "get")) =
    HookType.query := rfl

theorem classify_genFn_post (p : Str) :
    classifyHookType
      (NamingConventions.generateFunctionName NamingConventions.defaultFunctionNaming p (str "post")) =
    HookType.mutation := rfl

theorem classify_genFn_put (p : Str) :
    classifyHookType
      (NamingConventions.generateFunctionName NamingConventions.defaultFunctionNaming p (str "put")) =
    HookType.mutation := rfl

theorem classify_genFn_patch (p : Str) :
    classifyHookType
      (NamingConventions.generateFunctionName NamingConventions.defaultFunctionNaming p (str "patch")) =
    HookType.mutation := rfl

theorem classify_genFn_delete (p : Str) :
    classifyHookType
      (NamingConventions.generateFunctionName NamingConventions.defaultFunctionNaming p (str "delete")) =
    HookType.mutation := rfl

end ReactQueryGenerator

/-- C8 counterexample: hook classification matches hard-coded name
keywords, not the HTTP method.  Under a verb-prefix configuration mapping
`post` to `submit`, the wrapper of a POST operation is named
`submitUsers` and is classified as a query hook, not a mutation hook. -/
theorem C8_counterexample :
    NamingConventions.generateFunctionName [(str "post", str "submit")]
        (str "/users") (str "post") = str "submitUsers"
    ∧ ReactQueryGenerator.classifyHookType
        (NamingConventions.generateFunctionName [(str "post", str "submit")]
          (str "/users") (str "post")) = ReactQueryGenerator.HookType.query
    ∧ ReactQueryGenerator.HookType.query ≠ ReactQueryGenerator.HookType.mutation := by
  refine ⟨by decide, by decide, by decide⟩

/-- C8 (amended): hook classification is by the hard-coded name keywords
`create`/`modify`/`remove`/`update`/`delete`; under the DEFAULT verb-prefix
configuration this coincides with classification by HTTP method: a wrapper
generated from a GET operation is a query hook and a wrapper generated from
any other of the five methods is a mutation hook.  Under a custom
verb-prefix configuration the coincidence can fail. -/
theorem C8_hook_classification :
    ∀ (p m : Str), m ∈ httpMethods →
      ReactQueryGenerator.classifyHookType
          (NamingConventions.generateFunctionName NamingConventions.defaultFunctionNaming p m) =
        (if m = str "get" then ReactQueryGenerator.HookType.query
         else ReactQueryGenerator.HookType.mutation) := by
  intro p m hm
  simp only [httpMethods, List.mem_cons, List.not_mem_nil, or_false] at hm
  rcases hm with rfl | rfl | rfl | rfl | rfl
  · rw [ReactQueryGenerator.classify_genFn_get, if_pos rfl]
  · rw [ReactQueryGenerator.classify_genFn_post, if_neg (by decide)]
  · rw [ReactQueryGenerator.classify_genFn_put, if_neg (by decide)]
  · rw [ReactQueryGenerator.classify_genFn_patch, if_neg (by decide)]
  · rw [ReactQueryGenerator.classify_genFn_delete, if_neg (by decide)]

/-- C8 witness: the amended classification applied at concrete inputs:
GET of `/users` gives a query hook, POST of `/users` a mutation hook. -/
theorem C8_witness :
    ReactQueryGenerator.classifyHookType
        (NamingConventions.generateFunctionName NamingConventions.defaultFunctionNaming
          (str "/users") (str "get")) = ReactQueryGenerator.HookType.query
    ∧ ReactQueryGenerator.classifyHookType
        (NamingConventions.generateFunctionName NamingConventions.defaultFunctionNaming
          (str "/users") (str "post")) = ReactQueryGenerator.HookType.mutation :=
  ⟨(C8_hook_classification (str "/users") (str "get") (by decide)).trans (by decide),
   (C8_hook_classification (str "/users") (str "post") (by decide)).trans (by decide)⟩

/-- C10 counterexample: the two path-to-tag functions disagree on
`/V1/users`: the tag classifier matches the version segment
case-sensitively and emits the tag `V1`, while the generators' tag
derivation matches case-insensitively and groups the path under
`V1_users`. -/
theorem C10_counterexample :
    TagsGenerator.extractTagFromPath (str "/V1/users") (str "") = some (str "V1")
    ∧ NamingConventions.extractTagFromPath (str "/V1/users") = str "V1_users"
    ∧ str "V1" ≠ str "V1_users" := by
  refine ⟨by decide, by decide, by decide⟩

/-- C10 (amended): whenever the tag classifier returns a non-null tag for a
path whose first segment is version-case-consistent (the case-insensitive
`/^v\d+$/i` test agrees with the case-sensitive `/^v\d+$/` test, i.e. the
segment is not an upper-case `V` followed by digits), the generators' tag
derivation returns the same tag. -/
theorem C10_tag_agreement :
    ∀ path sn t, TagsGenerator.extractTagFromPath path sn = some t →
      (∀ s0 ∈ ((splitOnC '/' path).filter (fun s => !s.isEmpty)).head?,
        NamingConventions.vSegCI s0 = TagsGenerator.vSeg s0) →
      NamingConventions.extractTagFromPath path = t := by
  intro path sn t ht hv
  simp only [TagsGenerator.extractTagFromPath] at ht
  simp only [NamingConventions.extractTagFromPath]
  cases hs : (splitOnC '/' path).filter (fun s => !s.isEmpty) with
  | nil =>
    rw [hs] at ht
    simp only [Option.some.injEq] at ht
    exact ht
  | cons s0 rest =>
    rw [hs] at ht
    have hv0 : NamingConventions.vSegCI s0 = TagsGenerator.vSeg s0 := by
      apply hv
      rw [hs]
      rfl
    cases rest with
    | nil =>
      by_cases hvs : TagsGenerator.vSeg s0
      · simp only [hvs, if_true, Option.some.injEq] at ht
        exact ht
      · simp only [hvs, Bool.false_eq_true, if_false] at ht
        by_cases h0 : s0 = str "internal"
        · simp [h0] at ht
        · by_cases hc : sn = str "content" ∧ s0 = str "tournament"
          · simp [h0, hc] at ht
          · simp only [h0, hc, if_neg, if_false, Option.some.injEq] at ht
            exact ht
    | cons s1 rs =>
      by_cases hvs : TagsGenerator.vSeg s0
      · have hci : NamingConventions.vSegCI s0 = true := by rw [hv0]; exact hvs
        simp only [hvs, if_true] at ht
        by_cases hc : sn = str "content" ∧ s1 = str "tournament"
        · simp [hc] at ht
        · by_cases h1 : s1 = str "internal"
          · simp [hc, h1] at ht
          · simp only [hc, h1, if_neg, if_false, Option.some.injEq] at ht
            simp only [hci, if_true]
            exact ht
      · have hci : NamingConventions.vSegCI s0 = false := by rw [hv0]; simpa using hvs
        simp only [hvs, Bool.false_eq_true, if_false] at ht
        by_cases h0 : s0 = str "internal"
        · simp [h0] at ht
        · by_cases hc : sn = str "content" ∧ s0 = str "tournament"
          · simp [h0, hc] at ht
          · simp only [h0, hc, if_neg, if_false, Option.some.injEq] at ht
            simp only [hci, Bool.false_eq_true, if_false]
            exact ht

/-- C10 witness: agreement applied at the concrete path `/v1/users`, where
the classifier emits `v1_users` and the derivation returns the same tag. -/
theorem C10_witness :
    NamingConventions.extractTagFromPath (str "/v1/users") = str "v1_users" :=
  C10_tag_agreement (str "/v1/users") (str "") (str "v1_users") (by decide)
    (by
      intro s0 hs0
      have he : ((splitOnC '/' (str "/v1/users")).filter (fun s => !s.isEmpty)).head? =
          some (str "v1") := by decide
      rw [he] at hs0
      simp only [Option.mem_def, Option.some.injEq] at hs0
      subst hs0
      decide)

/-- C9: the pipeline loop of `generateAll` aborts after a failing required
step (the steps entered are a prefix of the steps up to and including that
failure), records a failing optional step in `failed` while the remaining
steps still run exactly as they would on their own, and the final summary
accounts for every entered step: the entered steps are a permutation of
`success ++ failed ++ warned` (the two summary lists plus the logged
missing-generator warnings), so no outcome is dropped. -/
theorem C9_pipeline :
    (∀ pre (s : Orchestrator.StepDef) post,
      s.required = true → s.throws = true → s.hasGen = true →
      (Orchestrator.generateAll (pre ++ s :: post)).attempted <+:
        ((pre ++ [s]).map Orchestrator.StepDef.name))
    ∧ (∀ (s : Orchestrator.StepDef) post,
        s.hasGen = true → s.throws = true → s.required = false →
        Orchestrator.generateAll (s :: post) =
          ⟨(Orchestrator.generateAll post).success,
           s.name :: (Orchestrator.generateAll post).failed,
           (Orchestrator.generateAll post).warned,
           s.name :: (Orchestrator.generateAll post).attempted⟩)
    ∧ (∀ steps, (Orchestrator.generateAll steps).attempted.Perm
        ((Orchestrator.generateAll steps).success ++
          (Orchestrator.generateAll steps).failed ++
          (Orchestrator.generateAll steps).warned)) := by
  refine ⟨?_, ?_, ?_⟩
  · intro pre s post hreq hthr hgen
    induction pre with
    | nil =>
      simp only [List.nil_append, List.map_cons]
      simp [Orchestrator.generateAll, hreq, hthr, hgen]
    | cons p pre' ih =>
      simp only [List.cons_append, List.map_cons]
      by_cases hg : p.hasGen
      · by_cases ht : p.throws
        · by_cases hr : p.required
          · simp only [Orchestrator.generateAll, hg, ht, hr, if_true]
            exact ⟨(pre' ++ [s]).map Orchestrator.StepDef.name, rfl⟩
          · simp only [Orchestrator.generateAll, hg, ht, hr, if_true,
              Bool.false_eq_true, if_false]
            rcases ih with ⟨tail, htail⟩
            exact ⟨tail, by simp [htail]⟩
        · simp only [Orchestrator.generateAll, hg, ht, if_true,
            Bool.false_eq_true, if_false]
          rcases ih with ⟨tail, htail⟩
          exact ⟨tail, by simp [htail]⟩
      · simp only [Orchestrator.generateAll, hg, Bool.false_eq_true, if_false]
        rcases ih with ⟨tail, htail⟩
        exact ⟨tail, by simp [htail]⟩
  · intro s post hgen hthr hreq
    simp [Orchestrator.generateAll, hgen, hthr, hreq]
  · intro steps
    induction steps with
    | nil => simp [Orchestrator.generateAll]
    | cons s rest ih =>
      by_cases hg : s.hasGen
      · by_cases ht : s.throws
        · by_cases hr : s.required
          · simp [Orchestrator.generateAll, hg, ht, hr]
          · simp only [Orchestrator.generateAll, hg, ht, hr, if_true,
              Bool.false_eq_true, if_false]
            simp only [List.append_assoc, List.cons_append]
            rw [List.append_assoc] at ih
            exact (List.Perm.cons s.name ih).trans List.perm_middle.symm
        · simp only [Orchestrator.generateAll, hg, ht, if_true,
            Bool.false_eq_true, if_false]
          simpa using List.Perm.cons s.name ih
      · simp only [Orchestrator.generateAll, hg, Bool.false_eq_true, if_false]
        exact (List.Perm.cons s.name ih).trans List.perm_middle.symm

/-- C9 witness: the pipeline properties applied to concrete step lists: a
required failing step `b` cuts the run short after `[a, b]`, and an
optional failing step `o` is recorded while the tail still runs. -/
theorem C9_witness :
    (Orchestrator.generateAll
        [⟨str "a", false, true, false⟩, ⟨str "b", true, true, true⟩,
         ⟨str "c", false, true, false⟩]).attempted <+: [str "a", str "b"]
    ∧ Orchestrator.generateAll
        [⟨str "o", false, true, true⟩, ⟨str "d", false, true, false⟩] =
      ⟨(Orchestrator.generateAll [⟨str "d", false, true, false⟩]).success,
       str "o" :: (Orchestrator.generateAll [⟨str "d", false, true, false⟩]).failed,
       (Orchestrator.generateAll [⟨str "d", false, true, false⟩]).warned,
       str "o" :: (Orchestrator.generateAll [⟨str "d", false, true, false⟩]).attempted⟩ :=
  ⟨by
    have h := C9_pipeline.1 [⟨str "a", false, true, false⟩] ⟨str "b", true, true, true⟩
      [⟨str "c", false, true, false⟩] rfl rfl rfl
    simpa using h,
   C9_pipeline.2.1 ⟨str "o", false, true, true⟩ [⟨str "d", false, true, false⟩] rfl rfl rfl⟩

namespace DeepSchema

/-- Lookup of a schema body in `this.allSchemas` by name; for the graph
walker a schema body is abstracted to the list of schema names its
properties reference (the `nestedSchemas` set that
`extractAllProperties` returns for it). -/
def lookupSchema (schemas : List (Str × List Str)) (n : Str) : Option (List Str) :=
  (schemas.find? (fun e => decide (e.1 = n))).map (fun e => e.2)

/-- Embedding of `DeepSchemaTypeExtractor.processNestedSchemas`
(part_002 lines 458-493) with the run-scoped `this.processedTypes` set
threaded explicitly as `visited`: a call with `depth > 5` is truncated to
an empty result; each name is skipped when already visited, otherwise
marked visited, and when its schema exists its entry is emitted followed by
the recursive walk of its references at `depth + 1`, then the loop
continues with the updated visited set. -/
def processNestedSchemas (schemas : List (Str × List Str)) (depth : Nat)
    (names : List Str) (visited : List Str) : List (Str × Nat) × List Str :=
  if _h : depth > 5 then ([], visited)
  else
    match names with
    | [] => ([], visited)
    | n :: rest =>
      if n ∈ visited then processNestedSchemas schemas depth rest visited
      else
        match lookupSchema schemas n with
        | none => processNestedSchemas schemas depth rest (n :: visited)
        | some nested =>
          let d := processNestedSchemas schemas (depth + 1) nested (n :: visited)
          let t := processNestedSchemas schemas depth rest d.2
          ((n, depth) :: (d.1 ++ t.1), t.2)
termination_by (6 - depth, names.length)

end DeepSchema

/-- C3: the nested-schema walker terminates on every schema graph (the
embedding is a total function, with termination measure `6 - depth` since
every recursive descent increases the depth counter); a call whose depth
exceeds the cap of 5 returns an empty result with the visited set
untouched (truncation, not an error); a walk whose names are all already
in the run-scoped visited set contributes nothing (idempotence); and on
the cyclic graph A→B→A the walk terminates, emitting each schema exactly
once with increasing depths. -/
theorem C3_walker :
    (∀ schemas depth names visited, depth > 5 →
      DeepSchema.processNestedSchemas schemas depth names visited = ([], visited))
    ∧ (∀ schemas depth names visited,
        (∀ n ∈ names, n ∈ visited) →
        DeepSchema.processNestedSchemas schemas depth names visited = ([], visited))
    ∧ DeepSchema.processNestedSchemas
        [(str "A", [str "B"]), (str "B", [str "A"])] 0 [str "A"] [] =
      ([(str "A", 0), (str "B", 1)], [str "B", str "A"]) := by
  refine ⟨?_, ?_, ?_⟩
  · intro schemas depth names visited h
    rw [DeepSchema.processNestedSchemas.eq_def]
    simp [h]
  · intro schemas depth names visited h
    induction names with
    | nil =>
      rw [DeepSchema.processNestedSchemas.eq_def]
      by_cases hd : depth > 5 <;> simp [hd]
    | cons n rest ih =>
      rw [DeepSchema.processNestedSchemas.eq_def]
      have hn : n ∈ visited := h n (List.mem_cons_self _ _)
      by_cases hd : depth > 5
      · simp [hd]
      · simp only [hd, dif_neg, not_false_iff, hn, if_true]
        exact ih (fun m hm => h m (List.mem_cons_of_mem _ hm))
  · simp [DeepSchema.processNestedSchemas, DeepSchema.lookupSchema, str]

/-- C3 witness: the truncation and idempotence parts applied at concrete
inputs: depth 6 truncates, and re-walking fully visited names adds
nothing. -/
theorem C3_witness :
    DeepSchema.processNestedSchemas [(str "A", [str "B"])] 6 [str "A"] [] = ([], [])
    ∧ DeepSchema.processNestedSchemas [(str "A", [str "B"]), (str "B", [str "A"])] 0
        [str "A", str "B"] [str "B", str "A"] = ([], [str "B", str "A"]) :=
  ⟨C3_walker.1 _ 6 _ _ (by omega),
   C3_walker.2.1 _ 0 _ _ (by decide)⟩

/-- The single-quote character, written numerically. -/
def quoteC : Char := Char.ofNat 39

namespace DeepSchema

/-- Number of matches of the `/'[^']*'/g` regex: the matcher pairs up
single quotes left to right, so the match count is half the quote count. -/
def stringLiteralCount (t : Str) : Nat := (t.count quoteC) / 2

/-- The enum/union test repeated at part_002 lines 346-348, 393-398,
416-421 and 434-439: a pipe, no `null`/`undefined`, and more than one
quoted string literal. -/
def isEnumUnion (t : Str) : Bool :=
  containsS (str "|") t && !(containsS (str "null") t) &&
    !(containsS (str "undefined") t) && decide (stringLiteralCount t > 1)

/-- JavaScript-style `endsWith`, evaluated on the reversed lists. -/
def endsWithB (t s : Str) : Bool := startsWithS s.reverse t.reverse

/-- Case-insensitive whole-string equality: the `/^name$/i` regexes. -/
def eqCI (a b : Str) : Bool := decide (lowerS a = lowerS b)

/-- Case-insensitive suffix test: the `/^.*Xyz$/i` and `/Xyz$/i` regexes
(the property names matched never contain newlines, so `.*` spans the
whole prefix). -/
def endsWithCI (p s : Str) : Bool := endsWithB (lowerS p) (lowerS s)

/-- The `skipPatterns` list of `isPropertyWorthExtracting`
(part_002 lines 376-388), in source order; note `/^.*Id$/` is the one
case-sensitive pattern. -/
def matchesSkipPattern (p : Str) : Bool :=
  eqCI p (str "id") || endsWithB p (str "Id") || endsWithCI p (str "Url") ||
  endsWithCI p (str "Count") || eqCI p (str "description") || eqCI p (str "content") ||
  eqCI p (str "message") || eqCI p (str "code") || eqCI p (str "data") ||
  eqCI p (str "format") || eqCI p (str "https")

/-- The `includePatterns` list of `isPropertyWorthExtracting`
(part_002 lines 403-408). -/
def matchesIncludePattern (p : Str) : Bool :=
  endsWithCI p (str "Type") || endsWithCI p (str "Status") ||
  endsWithCI p (str "State") || endsWithCI p (str "Mode")

/-- Embedding of `DeepSchemaTypeExtractor.isPropertyWorthExtracting`
(part_002 lines 374-425), with the control flow kept exactly as in the
source: skip patterns first (overridden by enum/union types), then include
patterns, then the enum check, then the keep-by-default return. -/
def isPropertyWorthExtracting (p t : Str) : Bool :=
  if matchesSkipPattern p then
    if isEnumUnion t then true else false
  else if matchesIncludePattern p then true
  else if isEnumUnion t then true
  else true

/-- The needle of the nested-reference priority check,
`components['schemas']`. -/
def schemasRefNeedle : Str :=
  str "components[" ++ quoteC :: (str "schemas" ++ quoteC :: str "]")

/-- Embedding of `DeepSchemaTypeExtractor.getPropertyPriority`
(part_002 lines 430-453). -/
def getPropertyPriority (p t : Str) : Nat :=
  (if isEnumUnion t then 100 else 0) +
  (if endsWithCI p (str "Type") then 50 else 0) +
  (if endsWithCI p (str "Status") then 50 else 0) +
  (if endsWithCI p (str "State") then 40 else 0) +
  (if endsWithCI p (str "Mode") then 30 else 0) +
  (if containsS schemasRefNeedle t then 20 else 0)

/-- The filter-then-rank skeleton of `extractAllProperties`
(part_002 lines 287-369) over (property name, type text) pairs: keep the
properties passing `isPropertyWorthExtracting`, then sort by descending
priority (the `properties.sort((a, b) => b.priority - a.priority)` of
line 366). -/
def extractAllProperties (props : List (Str × Str)) : List (Str × Str) :=
  isortBy (fun a b => decide (getPropertyPriority b.1 b.2 ≤ getPropertyPriority a.1 a.2))
    (props.filter (fun pr => isPropertyWorthExtracting pr.1 pr.2))

/-- Recursion core of the `split(/(?=[A-Z])/)` of `toPascalCase`
(part_002 line 585): a new chunk starts before every `[A-Z]` character,
except at the very beginning of the string. -/
def pascalGo (cur : Str) : Str → List Str
  | [] => [cur]
  | c :: rest =>
    if isUpperC c then
      if cur.isEmpty then pascalGo [c] rest
      else cur :: pascalGo [c] rest
    else pascalGo (cur ++ [c]) rest

/-- The `split(/(?=[A-Z])/)` of `toPascalCase`. -/
def splitBeforeUpper (s : Str) : List Str := pascalGo [] s

/-- Embedding of `DeepSchemaTypeExtractor.toPascalCase`
(part_002 lines 581-588): split before upper-case letters and capitalise
each chunk.  (The preceding `replace(/([a-z])([A-Z])/g, '$1$2')` of the
source replaces every match with itself and is the identity, so it is not
modelled.) -/
def toPascalCase (s : Str) : Str := ((splitBeforeUpper s).map capitalizeS).flatten

/-- An anchored `replace(/Suf$/, rep)`: replace the suffix when present,
otherwise leave the string unchanged. -/
def replaceSuffix (t s rep : Str) : Str :=
  if endsWithB t s then t.take (t.length - s.length) ++ rep else t

/-- Embedding of `DeepSchemaTypeExtractor.generatePropertyTypeName`
(part_002 lines 593-640): names already starting with `[A-Z]` are
returned unchanged; purely numeric names map to the fixed `AccountInfo`
fallback; `is`/`has`/`allow`/`hide` prefixes keep the PascalCase
conversion; then the `url`, `id`, `count` and `At` post-rules are tried in
source order, each returning immediately. -/
def generatePropertyTypeName (p : Str) : Str :=
  if (match p with | c :: _ => isUpperC c | [] => false) then p
  else
    let typeName := toPascalCase p
    if p ≠ [] ∧ p.all isDigitC then str "AccountInfo"
    else if startsWithS (str "is") p || startsWithS (str "has") p ||
        startsWithS (str "allow") p || startsWithS (str "hide") p then typeName
    else if containsS (str "url") (lowerS p) then replaceSuffix typeName (str "Url") (str "URL")
    else if containsS (str "id") (lowerS p) then replaceSuffix typeName (str "Id") (str "ID")
    else if containsS (str "count") (lowerS p) then typeName
    else if endsWithB p (str "At") then typeName
    else typeName

/-- Embedding of `DeepSchemaTypeExtractor.generateUniqueTypeName`
(part_002 lines 646-651). -/
def generateUniqueTypeName (schemaName propertyName : Str) : Str :=
  str "Props_" ++ schemaName ++ '_' :: generatePropertyTypeName propertyName

end DeepSchema

theorem startsWithS_iff (a b : Str) : startsWithS a b = true ↔ a <+: b := by
  induction a generalizing b with
  | nil => simp [startsWithS, List.nil_prefix]
  | cons c cs ih =>
    cases b with
    | nil => simp [startsWithS]
    | cons d ds =>
      simp only [startsWithS, Bool.and_eq_true, beq_iff_eq, List.cons_prefix_cons]
      rw [ih ds]

theorem endsWithB_iff (t s : Str) : DeepSchema.endsWithB t s = true ↔ s <:+ t := by
  unfold DeepSchema.endsWithB
  rw [startsWithS_iff]
  constructor
  · intro h
    simpa using h.reverse
  · intro h
    exact h.reverse

theorem containsS_append_self (u s : Str) : containsS s (u ++ s) = true := by
  induction u with
  | nil =>
    cases s with
    | nil => rfl
    | cons c cs =>
      show containsS (c :: cs) (c :: cs) = true
      unfold containsS
      rw [(startsWithS_iff _ _).mpr (List.prefix_refl _)]
      rfl
  | cons x u' ih =>
    simp [containsS, ih]

theorem isUpperC_false_of_isLowerC (c : Char) (h : isLowerC c = true) :
    isUpperC c = false := by
  unfold isLowerC at h
  unfold isUpperC
  simp only [Bool.and_eq_true, decide_eq_true_eq] at h
  simp only [Bool.and_eq_false_iff, decide_eq_false_iff_not]
  omega

theorem isUpperC_false_of_isDigitC (c : Char) (h : isDigitC c = true) :
    isUpperC c = false := by
  unfold isDigitC at h
  unfold isUpperC
  simp only [Bool.and_eq_true, decide_eq_true_eq] at h
  simp only [Bool.and_eq_false_iff, decide_eq_false_iff_not]
  omega

theorem isDigitC_false_of_isLowerC (c : Char) (h : isLowerC c = true) :
    isDigitC c = false := by
  unfold isLowerC at h
  unfold isDigitC
  simp only [Bool.and_eq_true, decide_eq_true_eq] at h
  simp only [Bool.and_eq_false_iff, decide_eq_false_iff_not]
  omega

theorem lowerS_append (a b : Str) : lowerS (a ++ b) = lowerS a ++ lowerS b :=
  List.map_append lowerC a b

namespace DeepSchema

theorem pascalGo_notUpper (stem : Str) : ∀ cur rest,
    (∀ c ∈ stem, isUpperC c = false) →
    pascalGo cur (stem ++ rest) = pascalGo (cur ++ stem) rest := by
  induction stem with
  | nil => simp
  | cons c stem' ih =>
    intro cur rest h
    have hc := h c (List.mem_cons_self _ _)
    simp only [List.cons_append, pascalGo, hc, Bool.false_eq_true, if_false,
      List.append_eq]
    rw [ih (cur ++ [c]) rest (fun d hd => h d (List.mem_cons_of_mem _ hd))]
    simp

theorem splitBeforeUpper_lower_append (stem : Str) (u : Char) (utail : Str)
    (h1 : stem ≠ []) (h2 : ∀ c ∈ stem, isUpperC c = false)
    (hu : isUpperC u = true) (hut : ∀ c ∈ utail, isUpperC c = false) :
    splitBeforeUpper (stem ++ u :: utail) = [stem, u :: utail] := by
  unfold splitBeforeUpper
  rw [pascalGo_notUpper stem [] (u :: utail) h2]
  simp only [List.nil_append]
  have hne : stem.isEmpty = false := by
    cases stem with
    | nil => exact absurd rfl h1
    | cons a b => rfl
  simp only [pascalGo, hu, if_true, hne, Bool.false_eq_true, if_false]
  have : utail = utail ++ [] := by simp
  rw [this, pascalGo_notUpper utail [u] [] (by simpa using hut)]
  simp [pascalGo]

theorem toPascalCase_lower_append (stem : Str) (u : Char) (utail : Str)
    (h1 : stem ≠ []) (h2 : ∀ c ∈ stem, isUpperC c = false)
    (hu : isUpperC u = true) (hut : ∀ c ∈ utail, isUpperC c = false) :
    toPascalCase (stem ++ u :: utail) = capitalizeS stem ++ upperC u :: utail := by
  unfold toPascalCase
  rw [splitBeforeUpper_lower_append stem u utail h1 h2 hu hut]
  simp [capitalizeS]

theorem replaceSuffix_append (x s rep : Str) :
    replaceSuffix (x ++ s) s rep = x ++ rep := by
  unfold replaceSuffix
  rw [(endsWithB_iff _ _).mpr (List.suffix_append x s)]
  simp only [if_true]
  have hlen : (x ++ s).length - s.length = x.length := by
    simp [List.length_append]
  rw [hlen, List.take_left]

end DeepSchema

/-- C5 counterexample: the trailing-`Id` rule is not applied to `urlId`:
because the name also contains `url`, the `Url` post-rule returns first
(and does not fire, since the name does not end in `Url`), so the result
is `UrlId`, not the `UrlID` the claimed trailing-`Id` rule would give. -/
theorem C5_counterexample :
    DeepSchema.generatePropertyTypeName (str "urlId") = str "UrlId"
    ∧ str "UrlId" ≠ str "UrlID"
    ∧ DeepSchema.generateUniqueTypeName (str "Match") (str "urlId") =
        str "Props_Match_UrlId" := by
  refine ⟨by decide, by decide, by decide⟩

/-- C5 (amended): the derived alias is `Props_{s}_{T(p)}` with `T` the
camelCase-to-PascalCase conversion followed by post-rules tried in source
order, each returning immediately: purely numeric names map to the fixed
`AccountInfo` fallback; `is`/`has`/`allow`/`hide` prefixes keep the plain
conversion; a name containing `url` (case-insensitively) has a trailing
`Url` replaced by `URL`; only a name with no `url` occurrence has a
trailing `Id` replaced by `ID`.  In particular `tournamentType` on
schema `Match` yields `Props_Match_TournamentType`. -/
theorem C5_property_naming :
    DeepSchema.generateUniqueTypeName (str "Match") (str "tournamentType") =
      str "Props_Match_TournamentType"
    ∧ (∀ p : Str, p ≠ [] → p.all isDigitC = true →
        DeepSchema.generatePropertyTypeName p = str "AccountInfo")
    ∧ (∀ p : Str,
        (startsWithS (str "is") p || startsWithS (str "has") p ||
          startsWithS (str "allow") p || startsWithS (str "hide") p) = true →
        DeepSchema.generatePropertyTypeName p = DeepSchema.toPascalCase p)
    ∧ (∀ stem : Str, stem ≠ [] → (∀ c ∈ stem, isLowerC c = true) →
        (startsWithS (str "is") (stem ++ str "Url") ||
          startsWithS (str "has") (stem ++ str "Url") ||
          startsWithS (str "allow") (stem ++ str "Url") ||
          startsWithS (str "hide") (stem ++ str "Url")) = false →
        DeepSchema.generatePropertyTypeName (stem ++ str "Url") =
          capitalizeS stem ++ str "URL")
    ∧ (∀ stem : Str, stem ≠ [] → (∀ c ∈ stem, isLowerC c = true) →
        (startsWithS (str "is") (stem ++ str "Id") ||
          startsWithS (str "has") (stem ++ str "Id") ||
          startsWithS (str "allow") (stem ++ str "Id") ||
          startsWithS (str "hide") (stem ++ str "Id")) = false →
        containsS (str "url") (lowerS (stem ++ str "Id")) = false →
        DeepSchema.generatePropertyTypeName (stem ++ str "Id") =
          capitalizeS stem ++ str "ID") := by
  refine ⟨by decide, ?_, ?_, ?_, ?_⟩
  · intro p h1 h2
    obtain ⟨c, t, rfl⟩ : ∃ c t, p = c :: t := by
      cases p with
      | nil => exact absurd rfl h1
      | cons c t => exact ⟨c, t, rfl⟩
    have hc : isDigitC c = true := List.all_eq_true.mp h2 c (List.mem_cons_self _ _)
    have hu : isUpperC c = false := isUpperC_false_of_isDigitC c hc
    simp [DeepSchema.generatePropertyTypeName, hu, h2]
  · intro p h
    have h4 : ((startsWithS (str "is") p = true ∨ startsWithS (str "has") p = true) ∨
        startsWithS (str "allow") p = true) ∨ startsWithS (str "hide") p = true := by
      simpa [Bool.or_eq_true] using h
    rcases h4 with ((h' | h') | h') | h'
    · obtain ⟨t, rfl⟩ := (startsWithS_iff _ _).mp h'
      have hs : str "is" ++ t = 'i' :: 's' :: t := rfl
      rw [hs]
      have hpre : startsWithS (str "is") ('i' :: 's' :: t) = true :=
        (startsWithS_iff _ _).mpr ⟨t, rfl⟩
      have hu : isUpperC 'i' = false := by decide
      have hd : isDigitC 'i' = false := by decide
      simp [DeepSchema.generatePropertyTypeName, hpre, hu, hd]
    · obtain ⟨t, rfl⟩ := (startsWithS_iff _ _).mp h'
      have hs : str "has" ++ t = 'h' :: 'a' :: 's' :: t := rfl
      rw [hs]
      have hpre : startsWithS (str "has") ('h' :: 'a' :: 's' :: t) = true :=
        (startsWithS_iff _ _).mpr ⟨t, rfl⟩
      have hu : isUpperC 'h' = false := by decide
      have hd : isDigitC 'h' = false := by decide
      simp [DeepSchema.generatePropertyTypeName, hpre, hu, hd]
    · obtain ⟨t, rfl⟩ := (startsWithS_iff _ _).mp h'
      have hs : str "allow" ++ t = 'a' :: 'l' :: 'l' :: 'o' :: 'w' :: t := rfl
      rw [hs]
      have hpre : startsWithS (str "allow") ('a' :: 'l' :: 'l' :: 'o' :: 'w' :: t) = true :=
        (startsWithS_iff _ _).mpr ⟨t, rfl⟩
      have hu : isUpperC 'a' = false := by decide
      have hd : isDigitC 'a' = false := by decide
      simp [DeepSchema.generatePropertyTypeName, hpre, hu, hd]
    · obtain ⟨t, rfl⟩ := (startsWithS_iff _ _).mp h'
      have hs : str "hide" ++ t = 'h' :: 'i' :: 'd' :: 'e' :: t := rfl
      rw [hs]
      have hpre : startsWithS (str "hide") ('h' :: 'i' :: 'd' :: 'e' :: t) = true :=
        (startsWithS_iff _ _).mpr ⟨t, rfl⟩
      have hu : isUpperC 'h' = false := by decide
      have hd : isDigitC 'h' = false := by decide
      simp [DeepSchema.generatePropertyTypeName, hpre, hu, hd]
  · intro stem h1 h2 h3
    obtain ⟨c₀, stem', rfl⟩ : ∃ c t, stem = c :: t := by
      cases stem with
      | nil => exact absurd rfl h1
      | cons c t => exact ⟨c, t, rfl⟩
    have hu0 : isUpperC c₀ = false :=
      isUpperC_false_of_isLowerC c₀ (h2 c₀ (List.mem_cons_self _ _))
    have hd0 : isDigitC c₀ = false :=
      isDigitC_false_of_isLowerC c₀ (h2 c₀ (List.mem_cons_self _ _))
    simp only [List.cons_append, Bool.or_eq_false_iff] at h3
    obtain ⟨⟨⟨h3a, h3b⟩, h3c⟩, h3d⟩ := h3
    have hurl : containsS (str "url") (lowerS (c₀ :: (stem' ++ str "Url"))) = true := by
      rw [show c₀ :: (stem' ++ str "Url") = (c₀ :: stem') ++ str "Url" from rfl]
      rw [lowerS_append]
      rw [show lowerS (str "Url") = str "url" from by decide]
      exact containsS_append_self _ _
    have htp : DeepSchema.toPascalCase (c₀ :: (stem' ++ str "Url")) =
        capitalizeS (c₀ :: stem') ++ str "Url" := by
      rw [show c₀ :: (stem' ++ str "Url") = (c₀ :: stem') ++ 'U' :: str "rl" from rfl]
      have hx := DeepSchema.toPascalCase_lower_append (c₀ :: stem') 'U' (str "rl")
        (by simp) (fun c hc => isUpperC_false_of_isLowerC c (h2 c hc))
        (by decide) (by decide)
      rw [show upperC 'U' = 'U' from by decide] at hx
      exact hx
    simp [DeepSchema.generatePropertyTypeName, hu0, hd0, h3a, h3b, h3c, h3d,
      hurl, htp, DeepSchema.replaceSuffix_append]
  · intro stem h1 h2 h3 h4
    obtain ⟨c₀, stem', rfl⟩ : ∃ c t, stem = c :: t := by
      cases stem with
      | nil => exact absurd rfl h1
      | cons c t => exact ⟨c, t, rfl⟩
    have hu0 : isUpperC c₀ = false :=
      isUpperC_false_of_isLowerC c₀ (h2 c₀ (List.mem_cons_self _ _))
    have hd0 : isDigitC c₀ = false :=
      isDigitC_false_of_isLowerC c₀ (h2 c₀ (List.mem_cons_self _ _))
    simp only [List.cons_append, Bool.or_eq_false_iff] at h3
    obtain ⟨⟨⟨h3a, h3b⟩, h3c⟩, h3d⟩ := h3
    simp only [List.cons_append] at h4
    have hid : containsS (str "id") (lowerS (c₀ :: (stem' ++ str "Id"))) = true := by
      rw [show c₀ :: (stem' ++ str "Id") = (c₀ :: stem') ++ str "Id" from rfl]
      rw [lowerS_append]
      rw [show lowerS (str "Id") = str "id" from by decide]
      exact containsS_append_self _ _
    have htp : DeepSchema.toPascalCase (c₀ :: (stem' ++ str "Id")) =
        capitalizeS (c₀ :: stem') ++ str "Id" := by
      rw [show c₀ :: (stem' ++ str "Id") = (c₀ :: stem') ++ 'I' :: str "d" from rfl]
      have hx := DeepSchema.toPascalCase_lower_append (c₀ :: stem') 'I' (str "d")
        (by simp) (fun c hc => isUpperC_false_of_isLowerC c (h2 c hc))
        (by decide) (by decide)
      rw [show upperC 'I' = 'I' from by decide] at hx
      exact hx
    simp [DeepSchema.generatePropertyTypeName, hu0, hd0, h3a, h3b, h3c, h3d,
      h4, hid, htp, DeepSchema.replaceSuffix_append]

/-- C5 witness: the amended naming rules applied at concrete names:
`123`, `isActive`, `imageUrl` and `userId`. -/
theorem C5_witness :
    DeepSchema.generatePropertyTypeName (str "123") = str "AccountInfo"
    ∧ DeepSchema.generatePropertyTypeName (str "isActive") =
        DeepSchema.toPascalCase (str "isActive")
    ∧ DeepSchema.generatePropertyTypeName (str "image" ++ str "Url") =
        capitalizeS (str "image") ++ str "URL"
    ∧ DeepSchema.generatePropertyTypeName (str "user" ++ str "Id") =
        capitalizeS (str "user") ++ str "ID" :=
  ⟨C5_property_naming.2.1 _ (by decide) (by decide),
   C5_property_naming.2.2.1 _ (by decide),
   C5_property_naming.2.2.2.1 (str "image") (by decide) (by decide) (by decide),
   C5_property_naming.2.2.2.2 (str "user") (by decide) (by decide) (by decide) (by decide)⟩

namespace DeepSchema

theorem not_eqCI (p u w : Str) (h : u <:+ lowerS p)
    (hnw : ¬ u <:+ lowerS w) : eqCI p w = false := by
  by_contra hcon
  rw [Bool.not_eq_false] at hcon
  unfold eqCI at hcon
  have he := of_decide_eq_true hcon
  rw [he] at h
  exact hnw h

theorem not_endsWithB_cs (p u s : Str) (h : u <:+ lowerS p)
    (h1 : ¬ (lowerS s) <:+ u) (h2 : ¬ u <:+ (lowerS s)) :
    endsWithB p s = false := by
  by_contra hcon
  rw [Bool.not_eq_false] at hcon
  have hs := (endsWithB_iff _ _).mp hcon
  have hs2 : lowerS s <:+ lowerS p := hs.map lowerC
  rcases List.suffix_or_suffix_of_suffix hs2 h with h5 | h5
  · exact h1 h5
  · exact h2 h5

theorem not_endsWithCI (p u s : Str) (h : u <:+ lowerS p)
    (h1 : ¬ (lowerS s) <:+ u) (h2 : ¬ u <:+ (lowerS s)) :
    endsWithCI p s = false := by
  by_contra hcon
  rw [Bool.not_eq_false] at hcon
  unfold endsWithCI at hcon
  have hs := (endsWithB_iff _ _).mp hcon
  rcases List.suffix_or_suffix_of_suffix hs h with h5 | h5
  · exact h1 h5
  · exact h2 h5

theorem matchesSkip_false_of_suffix (p u : Str)
    (hu : u = str "type" ∨ u = str "status" ∨ u = str "state" ∨ u = str "mode")
    (h : u <:+ lowerS p) : matchesSkipPattern p = false := by
  unfold matchesSkipPattern
  rw [not_eqCI p u (str "id") h (by rcases hu with rfl | rfl | rfl | rfl <;> decide),
    not_endsWithB_cs p u (str "Id") h
      (by rcases hu with rfl | rfl | rfl | rfl <;> decide)
      (by rcases hu with rfl | rfl | rfl | rfl <;> decide),
    not_endsWithCI p u (str "Url") h
      (by rcases hu with rfl | rfl | rfl | rfl <;> decide)
      (by rcases hu with rfl | rfl | rfl | rfl <;> decide),
    not_endsWithCI p u (str "Count") h
      (by rcases hu with rfl | rfl | rfl | rfl <;> decide)
      (by rcases hu with rfl | rfl | rfl | rfl <;> decide),
    not_eqCI p u (str "description") h (by rcases hu with rfl | rfl | rfl | rfl <;> decide),
    not_eqCI p u (str "content") h (by rcases hu with rfl | rfl | rfl | rfl <;> decide),
    not_eqCI p u (str "message") h (by rcases hu with rfl | rfl | rfl | rfl <;> decide),
    not_eqCI p u (str "code") h (by rcases hu with rfl | rfl | rfl | rfl <;> decide),
    not_eqCI p u (str "data") h (by rcases hu with rfl | rfl | rfl | rfl <;> decide),
    not_eqCI p u (str "format") h (by rcases hu with rfl | rfl | rfl | rfl <;> decide),
    not_eqCI p u (str "https") h (by rcases hu with rfl | rfl | rfl | rfl <;> decide)]
  rfl

end DeepSchema

/-- C6 counterexample: the property name `https` with a non-enum type is
skipped by the code (the extra `/^https$/i` skip pattern), although it
matches none of the skip conditions the claim lists: it is not `id`, does
not end in `Id`, `Url` or `Count`, and is none of the six listed words. -/
theorem C6_counterexample :
    DeepSchema.isPropertyWorthExtracting (str "https") (str "string") = false
    ∧ str "https" ≠ str "id"
    ∧ DeepSchema.endsWithB (str "https") (str "Id") = false
    ∧ DeepSchema.endsWithCI (str "https") (str "Url") = false
    ∧ DeepSchema.endsWithCI (str "https") (str "Count") = false
    ∧ (∀ w ∈ [str "description", str "content", str "message", str "code",
        str "data", str "format"], str "https" ≠ w)
    ∧ DeepSchema.isEnumUnion (str "string") = false := by
  refine ⟨by decide, by decide, by decide, by decide, by decide, by decide, by decide⟩

/-- C6 (amended): the relevance filter keeps a property exactly when its
type is an enum/union of two or more string literals without
`null`/`undefined`, or its name matches none of the skip patterns — bare
`id`, trailing `Id`, `Url`, `Count`, or one of `description`, `content`,
`message`, `code`, `data`, `format`, or (beyond the claimed list) `https`;
names ending in `Type`/`Status`/`State`/`Mode` are always kept; and the
priority ranking only permutes the filtered list, never changing
inclusion. -/
theorem C6_relevance_filter :
    (∀ p t, DeepSchema.isPropertyWorthExtracting p t =
        (DeepSchema.isEnumUnion t || !DeepSchema.matchesSkipPattern p))
    ∧ (∀ p t,
        (DeepSchema.endsWithCI p (str "Type") || DeepSchema.endsWithCI p (str "Status") ||
         DeepSchema.endsWithCI p (str "State") || DeepSchema.endsWithCI p (str "Mode")) = true →
        DeepSchema.isPropertyWorthExtracting p t = true)
    ∧ (∀ props pr, pr ∈ DeepSchema.extractAllProperties props ↔
        pr ∈ props.filter (fun q => DeepSchema.isPropertyWorthExtracting q.1 q.2)) := by
  refine ⟨?_, ?_, ?_⟩
  · intro p t
    unfold DeepSchema.isPropertyWorthExtracting
    by_cases hs : DeepSchema.matchesSkipPattern p <;>
      by_cases he : DeepSchema.isEnumUnion t <;>
        by_cases hi : DeepSchema.matchesIncludePattern p <;>
          simp [hs, he, hi]
  · intro p t h
    have h4 : ((DeepSchema.endsWithCI p (str "Type") = true ∨
        DeepSchema.endsWithCI p (str "Status") = true) ∨
        DeepSchema.endsWithCI p (str "State") = true) ∨
        DeepSchema.endsWithCI p (str "Mode") = true := by
      simpa [Bool.or_eq_true] using h
    have hskip : DeepSchema.matchesSkipPattern p = false := by
      rcases h4 with ((h' | h') | h') | h'
      · unfold DeepSchema.endsWithCI at h'
        have hx := (endsWithB_iff _ _).mp h'
        rw [show lowerS (str "Type") = str "type" from by decide] at hx
        exact DeepSchema.matchesSkip_false_of_suffix p (str "type") (Or.inl rfl) hx
      · unfold DeepSchema.endsWithCI at h'
        have hx := (endsWithB_iff _ _).mp h'
        rw [show lowerS (str "Status") = str "status" from by decide] at hx
        exact DeepSchema.matchesSkip_false_of_suffix p (str "status") (Or.inr (Or.inl rfl)) hx
      · unfold DeepSchema.endsWithCI at h'
        have hx := (endsWithB_iff _ _).mp h'
        rw [show lowerS (str "State") = str "state" from by decide] at hx
        exact DeepSchema.matchesSkip_false_of_suffix p (str "state")
          (Or.inr (Or.inr (Or.inl rfl))) hx
      · unfold DeepSchema.endsWithCI at h'
        have hx := (endsWithB_iff _ _).mp h'
        rw [show lowerS (str "Mode") = str "mode" from by decide] at hx
        exact DeepSchema.matchesSkip_false_of_suffix p (str "mode")
          (Or.inr (Or.inr (Or.inr rfl))) hx
    simp [DeepSchema.isPropertyWorthExtracting, hskip]
  · intro props pr
    exact mem_isortBy _ _ _

/-- C6 witness: the always-keep rule applied at the concrete name
`tournamentType` with a plain string type. -/
theorem C6_witness :
    DeepSchema.isPropertyWorthExtracting (str "tournamentType") (str "string") = true :=
  C6_relevance_filter.2.1 (str "tournamentType") (str "string") (by decide)

/-- The double-quote character, written numerically. -/
def dq : Char := Char.ofNat 34

/-- The backtick character, written numerically. -/
def bt : Char := Char.ofNat 96

namespace DeepSchema

/-- The comment mode of the brace scanner: the JavaScript `inComment`
variable holding `false`, `'line'` or `'block'`. -/
inductive CMode where
  | noC
  | lineC
  | blockC
deriving DecidableEq

/-- The scanner state of the brace-matching loop of
`extractSchemasWithValidatedLogic` (part_002 lines 196-249): the running
brace count, the `inString` quote (if any), the comment mode, and the
`escapeNext` flag. -/
structure ScanSt where
  brace : Nat
  strQ : Option Char
  cmode : CMode
  esc : Bool
deriving DecidableEq

/-- One iteration of the scanner loop body (part_002 lines 203-248) on the
current character `c` with lookahead `next`: first the string-state block
(guarded by not-in-comment), then the comment block (guarded by
not-in-string, on the updated string state, and with no comment-mode guard
on the `//` and `/*` openers — they re-trigger even inside comments,
exactly as in the source), then the brace counting (guarded by both).  The
returned flag says whether the loop consumed an extra character
(the `pos++` inside the comment branches). -/
def stepChar (st : ScanSt) (c : Char) (next : Option Char) : ScanSt × Bool :=
  let st1 :=
    if st.cmode = CMode.noC then
      if st.esc then { st with esc := false }
      else if c = '\\' then { st with esc := true }
      else if c = dq ∨ c = quoteC ∨ c = bt then
        match st.strQ with
        | none => { st with strQ := some c }
        | some q => if q = c then { st with strQ := none } else st
      else st
    else st
  let p2 :=
    if st1.strQ = none then
      if c = '/' ∧ next = some '/' then ({ st1 with cmode := CMode.lineC }, true)
      else if c = '/' ∧ next = some '*' then ({ st1 with cmode := CMode.blockC }, true)
      else if st1.cmode = CMode.lineC ∧ c = '\n' then ({ st1 with cmode := CMode.noC }, false)
      else if st1.cmode = CMode.blockC ∧ c = '*' ∧ next = some '/' then
        ({ st1 with cmode := CMode.noC }, true)
      else (st1, false)
    else (st1, false)
  let st3 :=
    if p2.1.strQ = none ∧ p2.1.cmode = CMode.noC then
      if c = lbrace then { p2.1 with brace := p2.1.brace + 1 }
      else if c = rbrace then { p2.1 with brace := p2.1.brace - 1 }
      else p2.1
    else p2.1
  (st3, p2.2)

/-- The scanner loop (part_002 lines 203-249): starting in state `st`,
consume characters until the brace count returns to zero, returning the
number of characters consumed (the loop's final `pos` relative to its
start); `none` models exhaustion with a non-zero count (the
`중괄호 매칭 실패` warning path). -/
def scanAux (st : ScanSt) : List Char → Option Nat
  | [] => if st.brace = 0 then some 0 else none
  | c :: rest =>
    if st.brace = 0 then some 0
    else
      let r := stepChar st c rest.head?
      if r.2 then
        match rest with
        | [] => (scanAux r.1 []).map (fun n => n + 2)
        | _ :: rest2 => (scanAux r.1 rest2).map (fun n => n + 2)
      else (scanAux r.1 rest).map (fun n => n + 1)

/-- The initial state of one schema scan: brace count 1 just after the
opening brace, outside strings and comments. -/
def initScan : ScanSt := ⟨1, none, CMode.noC, false⟩

/-- JavaScript whitespace test for `trim`. -/
def isSpaceC (c : Char) : Bool := c = ' ' || c = '\t' || c = '\n' || c = '\r'

/-- JavaScript `trim`. -/
def trimS (s : Str) : Str :=
  ((s.dropWhile isSpaceC).reverse.dropWhile isSpaceC).reverse

/-- The per-schema loop of `extractSchemasWithValidatedLogic`
(part_002 lines 191-262) over the detected start positions, each given as
the schema name and the text following its opening brace: a successful
scan stores the trimmed content between the braces; a failed scan logs a
warning and stores nothing for that schema, and the loop continues. -/
def extractSchemasWithValidatedLogic : List (Str × List Char) → List (Str × Str)
  | [] => []
  | (n, body) :: rest =>
    match scanAux initScan body with
    | some k => (n, trimS (body.take (k - 1))) :: extractSchemasWithValidatedLogic rest
    | none => extractSchemasWithValidatedLogic rest

end DeepSchema

namespace DeepSchema

theorem stepChar_quote_open (st : ScanSt) (q : Char) (next : Option Char)
    (hql : q = dq ∨ q = quoteC ∨ q = bt)
    (h1 : st.strQ = none) (h2 : st.cmode = CMode.noC) (h3 : st.esc = false) :
    stepChar st q next = ({ st with strQ := some q }, false) := by
  rcases hql with rfl | rfl | rfl <;>
    simp [stepChar, h1, h2, h3, dq, quoteC, bt]

theorem stepChar_quote_inside (st : ScanSt) (q c : Char) (next : Option Char)
    (h1 : st.strQ = some q) (h2 : st.cmode = CMode.noC) (h3 : st.esc = false)
    (hc1 : c ≠ q) (hc2 : c ≠ '\\') :
    stepChar st c next = (st, false) := by
  by_cases h4 : c = dq ∨ c = quoteC ∨ c = bt
  · simp [stepChar, h1, h2, h3, hc2, h4, Ne.symm hc1]
  · simp [stepChar, h1, h2, h3, hc2, h4]

theorem stepChar_quote_close (st : ScanSt) (q : Char) (next : Option Char)
    (hql : q = dq ∨ q = quoteC ∨ q = bt)
    (h1 : st.strQ = some q) (h2 : st.cmode = CMode.noC) (h3 : st.esc = false) :
    stepChar st q next = ({ st with strQ := none }, false) := by
  rcases hql with rfl | rfl | rfl <;>
    (simp [stepChar, h1, h2, h3, dq, quoteC, bt]
     rw [if_neg (by decide), if_neg (by decide)])

theorem scanAux_through_string (q : Char) (hql : q = dq ∨ q = quoteC ∨ q = bt)
    (s : Str) (hs : ∀ c ∈ s, c ≠ q ∧ c ≠ '\\') :
    ∀ st : ScanSt, st.strQ = some q → st.cmode = CMode.noC → st.esc = false →
      st.brace ≠ 0 →
    ∀ post, scanAux st (s ++ q :: post) =
      (scanAux { st with strQ := none } post).map (fun n => n + (s.length + 1)) := by
  induction s with
  | nil =>
    intro st h1 h2 h3 hb post
    simp only [List.nil_append, scanAux, hb, if_false]
    rw [stepChar_quote_close st q post.head? hql h1 h2 h3]
    simp
  | cons c s' ih =>
    intro st h1 h2 h3 hb post
    have hc := hs c (List.mem_cons_self _ _)
    simp only [List.cons_append, scanAux, hb, if_false]
    rw [stepChar_quote_inside st q c (s' ++ q :: post).head? h1 h2 h3 hc.1 hc.2]
    simp only
    rw [ih (fun d hd => hs d (List.mem_cons_of_mem _ hd)) st h1 h2 h3 hb post]
    cases scanAux { st with strQ := none } post with
    | none => simp
    | some n =>
      simp only [Bool.false_eq_true, if_false, Option.map_some', Option.some.injEq,
        List.length_cons]
      omega

end DeepSchema

/-- C2 counterexample: comments are not fully opaque to the brace scan: in
the text `/* // ␤ } */ }` (scanned with brace depth 1), the `//` inside
the block comment switches the scanner to line-comment mode, the newline
ends it, and the `}` inside the block comment is counted, so the scan
stops after 8 characters at the in-comment brace; removing that in-comment
brace makes the scan stop at the real closing brace (12 characters), while
brace-opacity of comments would demand 13 for the first text. -/
theorem C2_counterexample :
    DeepSchema.scanAux DeepSchema.initScan
        ['/', '*', ' ', '/', '/', ' ', '\n', rbrace, ' ', '*', '/', ' ', rbrace] = some 8
    ∧ DeepSchema.scanAux DeepSchema.initScan
        ['/', '*', ' ', '/', '/', ' ', '\n', ' ', '*', '/', ' ', rbrace] = some 12
    ∧ (8 : Nat) ≠ 13 := by
  refine ⟨by decide, by decide, by decide⟩

/-- C2 (amended): quoted spans are opaque to the brace scan: from any
scanning state outside strings and comments with a positive depth, a
quoted span whose body contains neither the quote character nor a
backslash — in particular one containing unbalanced braces — only shifts
the result by its length, never changing which brace is matched;
exhausting the text with a non-zero depth reports not-found; and the
caller records nothing for a schema whose scan fails and continues with
the remaining schemas.  (Comments, however, are only opaque as long as
they contain no comment-opener: a `//` inside a `/* */` block switches the
scanner to line-comment mode, so a brace after the next newline counts.) -/
theorem C2_string_opacity :
    (∀ q, (q = dq ∨ q = quoteC ∨ q = bt) →
      ∀ s : Str, (∀ c ∈ s, c ≠ q ∧ c ≠ '\\') →
      ∀ st : DeepSchema.ScanSt, st.strQ = none → st.cmode = DeepSchema.CMode.noC →
        st.esc = false → st.brace ≠ 0 →
      ∀ post, DeepSchema.scanAux st (q :: (s ++ q :: post)) =
        (DeepSchema.scanAux st post).map (fun n => n + (s.length + 2)))
    ∧ (∀ st : DeepSchema.ScanSt, st.brace ≠ 0 → DeepSchema.scanAux st [] = none)
    ∧ (∀ (n : Str) (body : List Char) rest,
        DeepSchema.scanAux DeepSchema.initScan body = none →
        DeepSchema.extractSchemasWithValidatedLogic ((n, body) :: rest) =
          DeepSchema.extractSchemasWithValidatedLogic rest) := by
  refine ⟨?_, ?_, ?_⟩
  · intro q hql s hs st h1 h2 h3 hb post
    simp only [DeepSchema.scanAux, hb, if_false]
    rw [DeepSchema.stepChar_quote_open st q (s ++ q :: post).head? hql h1 h2 h3]
    simp only
    rw [DeepSchema.scanAux_through_string q hql s hs { st with strQ := some q }
      rfl h2 h3 hb post]
    rw [show ({ ({ st with strQ := some q } : DeepSchema.ScanSt) with strQ := none } :
        DeepSchema.ScanSt) = st from by cases st with | mk a b c d => simp_all]
    cases DeepSchema.scanAux st post with
    | none => simp
    | some n =>
      simp only [Bool.false_eq_true, if_false, Option.map_some', Option.some.injEq]
      omega
  · intro st hb
    simp [DeepSchema.scanAux, hb]
  · intro n body rest h
    simp [DeepSchema.extractSchemasWithValidatedLogic, h]

/-- C2 witness: the string-opacity and exhaustion parts applied at a
concrete input: a double-quoted string holding an unbalanced closing brace
shifts the match by its length, and the empty text with open depth fails. -/
theorem C2_witness :
    DeepSchema.scanAux DeepSchema.initScan [dq, rbrace, dq, rbrace] = some 4
    ∧ DeepSchema.scanAux DeepSchema.initScan [] = none :=
  ⟨by
    have h := C2_string_opacity.1 dq (Or.inl rfl) [rbrace] (by decide)
      DeepSchema.initScan rfl rfl rfl (by decide) [rbrace]
    rw [show ([dq, rbrace, dq, rbrace] : List Char) =
      dq :: ([rbrace] ++ dq :: [rbrace]) from rfl, h]
    decide,
   C2_string_opacity.2.1 DeepSchema.initScan (by decide)⟩

namespace TypeGenerator

/-- A response status label in the generated `paths[...][method].responses`
block: a numeric HTTP status (three digits, 100-599, as rendered by
openapi-typescript) or the literal label `default`. -/
inductive RStatus
  | code (n : Nat)
  | default
deriving DecidableEq

/-- The content of one response entry as rendered in the interface text:
`jsonNamed name` for `'application/json': components['schemas'][name]`;
`jsonInline dataRef hasCodeNumber` for an inline object literal
`'application/json': \x7b ... \x7d`, where `dataRef` records an optional
`data?: components['schemas'][X]` field and `hasCodeNumber` whether the
literal text `code: number` occurs in it; `noJson contentNever` for an
entry without `application/json`, with `contentNever` recording whether
it renders `content?: never`. -/
inductive RespContent
  | jsonNamed (name : Str)
  | jsonInline (dataRef : Option Str) (hasCodeNumber : Bool)
  | noJson (contentNever : Bool)
deriving DecidableEq

/-- `20\d` as a test on a rendered three-digit status label. -/
def is20x : RStatus → Bool
  | RStatus.code n => decide (200 ≤ n ∧ n ≤ 209)
  | RStatus.default => false

/-- `default` as a label test. -/
def isDef : RStatus → Bool
  | RStatus.code _ => false
  | RStatus.default => true

/-- The label alternation `(?:20\d|default)` of probe (a). -/
def isLbl20orDef (st : RStatus) : Bool := is20x st || isDef st

/-- The capture `[^'"]+Response` of probe (a): the schema name ends in
`Response` with a non-empty stem. -/
def respSuffixed (name : Str) : Bool :=
  DeepSchema.endsWithB name (str "Response") && decide (8 < name.length)

/-- Probe (a), the regex
`responses:\s*\x7b[\s\S]*?(?:20\d|default):\s*\x7b[\s\S]*?['"]application\/json['"]:\s*components\[['"]schemas['"]\]\[['"]([^'"]+Response)['"]\]`
on the rendered responses block: because `[\s\S]*?` matches across entry
boundaries, it captures the first `*Response`-suffixed named
`application/json` schema reference at or after the FIRST entry whose
label matches `20\d` or `default` — including references in later
non-2xx entries. -/
def probeA : List (RStatus × RespContent) → Option Str :=
  go false
where
  go (seen : Bool) : List (RStatus × RespContent) → Option Str
    | [] => none
    | (st, c) :: rest =>
      let seen2 := seen || isLbl20orDef st
      match c with
      | RespContent.jsonNamed name =>
        if seen2 && respSuffixed name then some name else go seen2 rest
      | _ => go seen2 rest

/-- Probes (b1)/(b2), the regexes
`responses:\s*\x7b[\s\S]*?L:\s*\x7b[\s\S]*?['"]application\/json['"]:\s*\x7b[\s\S]*?data\??\s*:\s*components\[['"]schemas['"]\]\[['"]([^'"]+)['"]\]`
for label `L` = `20\d` resp. `default`: stage 0 seeks the first matching
label, stage 1 the first inline `application/json` object opener at or
after it, stage 2 the first `data` schema reference at or after that;
each lazy `[\s\S]*?` again crosses entry boundaries. -/
def probeData (isLbl : RStatus → Bool) : List (RStatus × RespContent) → Option Str :=
  go 0
where
  go (stage : Nat) : List (RStatus × RespContent) → Option Str
    | [] => none
    | (st, c) :: rest =>
      let s1 := if stage = 0 then (if isLbl st then 1 else 0) else stage
      match c with
      | RespContent.jsonInline d _ =>
        if 1 ≤ s1 then
          match d with
          | some x => some x
          | none => go 2 rest
        else go s1 rest
      | _ => go s1 rest

/-- Probes (c1)/(c2), the regexes
`responses:\s*\x7b[\s\S]*?L:\s*\x7b[\s\S]*?['"]application\/json['"]:\s*\x7b[\s\S]*?code\s*:\s*number`:
same staging with target `code: number` inside an inline object. -/
def probeCode (isLbl : RStatus → Bool) : List (RStatus × RespContent) → Bool :=
  go 0
where
  go (stage : Nat) : List (RStatus × RespContent) → Bool
    | [] => false
    | (st, c) :: rest =>
      let s1 := if stage = 0 then (if isLbl st then 1 else 0) else stage
      match c with
      | RespContent.jsonInline _ hc =>
        if 1 ≤ s1 then (if hc then true else go 2 rest) else go s1 rest
      | _ => go s1 rest

/-- Probe (d1), `responses:\s*\x7b[\s\S]*?204:`: some entry carries the
status label 204. -/
def probe204 (entries : List (RStatus × RespContent)) : Bool :=
  entries.any (fun p => p.1 = RStatus.code 204)

/-- Probes (d2), `responses:\s*\x7b[\s\S]*?L:\s*\x7b[\s\S]*?content\?:\s*never`
for `L` = `20\d` resp. `default`: after the first matching label there is
an entry rendering `content?: never`. -/
def probeNever (isLbl : RStatus → Bool) : List (RStatus × RespContent) → Bool :=
  go false
where
  go (seen : Bool) : List (RStatus × RespContent) → Bool
    | [] => false
    | (st, c) :: rest =>
      let seen2 := seen || isLbl st
      match c with
      | RespContent.noJson cn => if seen2 && cn then true else go seen2 rest
      | _ => go seen2 rest

/-- The outcome of the Response-type resolution for one operation:
which `export type {id}_Response` line is generated and whether an
`{id}_RO` alias accompanies it. -/
inductive RespResolution
  | named (name : Str) (ro : Option Str)
  | inlineData (ro : Str)
  | codeMessage
  | voidResp
  | anyResp
deriving DecidableEq

/-- The RO lookup for a named Response schema: the schema body is located
by name in the components-schemas block and its optional
`data?: components['schemas'][X]` reference is extracted.  `comps` lists
each component schema name with that optional reference. -/
def roLookup (comps : List (Str × Option Str)) (name : Str) : Option Str :=
  match comps.find? (fun p => p.1 = name) with
  | some p => p.2
  | none => none

/-- The Response fallback chain of `processSchema` (part_000 lines
154-244): probe (a), else inline-data for `20\d` then `default`, else
`code: number` for `20\d` then `default`, else the `204:` label, else
`content?: never` for `20\d` then `default`, else `any`. -/
def codeResolve (entries : List (RStatus × RespContent))
    (comps : List (Str × Option Str)) : RespResolution :=
  match probeA entries with
  | some name => RespResolution.named name (roLookup comps name)
  | none =>
    match probeData is20x entries with
    | some x => RespResolution.inlineData x
    | none =>
      match probeData isDef entries with
      | some x => RespResolution.inlineData x
      | none =>
        if probeCode is20x entries || probeCode isDef entries then
          RespResolution.codeMessage
        else if probe204 entries then RespResolution.voidResp
        else if probeNever is20x entries || probeNever isDef entries then
          RespResolution.voidResp
        else RespResolution.anyResp

end TypeGenerator

/-- C1: the claim's ordered fallback chain holds for an operation whose
only response is `204` (it resolves to `void` with no RO, for every
components block), but NOT in general: probe (a)'s lazy `[\s\S]*?`
crosses response-entry boundaries, so an operation with responses
`\x7b 204: content?: never; 404: 'application/json':
components['schemas']['ErrResponse'] \x7d` — whose only 2xx response is
the schema-free 204 — resolves to the NAMED type `ErrResponse` taken
from the 404 entry instead of `void`: the 204 label satisfies
`(?:20\d|default)` and the bleed reaches the 404 entry's reference,
contradicting step (a)'s restriction to 2xx/default responses (and the
method's own doc comment scoping `_Response` to 2xx). -/
theorem C1_response_chain_bug :
    (∀ comps, TypeGenerator.codeResolve
        [(TypeGenerator.RStatus.code 204, TypeGenerator.RespContent.noJson true)] comps
        = TypeGenerator.RespResolution.voidResp)
    ∧ TypeGenerator.codeResolve
        [(TypeGenerator.RStatus.code 204, TypeGenerator.RespContent.noJson true),
         (TypeGenerator.RStatus.code 404,
          TypeGenerator.RespContent.jsonNamed (str "ErrResponse"))] []
        = TypeGenerator.RespResolution.named (str "ErrResponse") none
    ∧ TypeGenerator.RespResolution.named (str "ErrResponse") none
        ≠ TypeGenerator.RespResolution.voidResp := by
  refine ⟨fun comps => rfl, by decide, by decide⟩
